import Mathlib

/-!
Verification of the grpc-go client-side connection-selection subsystem:
the balancer registry and connectivity-state aggregator
(src/balancer/balancer.go) and the custom sticky round-robin picker
(src/unnamed/part_001 and the copy appended to balancer.go).
Go machine integers are modelled as Nat with explicit reduction
modulo 2^64 where the source relies on uint64 wraparound.
-/

set_option maxHeartbeats 1000000

namespace GrpcBalancer

/-- connectivity.State (package google.golang.org/grpc/connectivity):
the health of one connection. -/
inductive ConnState where
  | Idle
  | Connecting
  | Ready
  | TransientFailure
  | Shutdown
deriving DecidableEq, Repr

/-- The modulus 2^64 of Go uint64 arithmetic. -/
def UINT64MOD : Nat := 18446744073709551616

/-- ConnectivityStateEvaluator (balancer.go): two uint64 counters,
numReady and numConnecting. -/
structure ConnectivityStateEvaluator where
  numReady : Nat
  numConnecting : Nat
deriving DecidableEq, Repr

/-- One iteration of the counter-update loop in RecordTransition:
`cse.numReady += updateVal` / `cse.numConnecting += updateVal` for the
counter matching `state` (uint64 addition, hence mod 2^64); other states
leave the counters untouched. -/
def ConnectivityStateEvaluator.applyOne (cse : ConnectivityStateEvaluator)
    (state : ConnState) (updateVal : Nat) : ConnectivityStateEvaluator :=
  match state with
  | .Ready => { cse with numReady := (cse.numReady + updateVal) % UINT64MOD }
  | .Connecting =>
      { cse with numConnecting := (cse.numConnecting + updateVal) % UINT64MOD }
  | _ => cse

/-- RecordTransition (balancer.go lines 328-348).  The Go loop ranges over
[oldState, newState] with `updateVal := 2*uint64(idx) - 1`: for idx = 0 this
is 2^64 - 1 (uint64 wraparound of -1), for idx = 1 it is 1.  It then
evaluates: Ready if numReady > 0, else Connecting if numConnecting > 0,
else TransientFailure.  Returns (aggregated state, updated evaluator). -/
def ConnectivityStateEvaluator.RecordTransition (cse : ConnectivityStateEvaluator)
    (oldState newState : ConnState) : ConnState × ConnectivityStateEvaluator :=
  let cse1 := cse.applyOne oldState (UINT64MOD - 1)
  let cse2 := cse1.applyOne newState 1
  let agg :=
    if cse2.numReady > 0 then ConnState.Ready
    else if cse2.numConnecting > 0 then ConnState.Connecting
    else ConnState.TransientFailure
  (agg, cse2)

/-- C6: for every pair (old, new), RecordTransition changes numReady by
+1 when new = Ready and by wraparound -1 (addition of 2^64 - 1 mod 2^64)
when old = Ready, and numConnecting likewise for Connecting; states other
than Ready and Connecting leave both counters untouched, and
RecordTransition(s, s) leaves both counters at their prior values. -/
theorem recordTransition_counter_deltas
    (cse : ConnectivityStateEvaluator) (oldState newState : ConnState)
    (hr : cse.numReady < UINT64MOD) (hc : cse.numConnecting < UINT64MOD) :
    ((cse.RecordTransition oldState newState).2.numReady =
      (cse.numReady + (if newState = ConnState.Ready then 1 else 0)
        + (if oldState = ConnState.Ready then UINT64MOD - 1 else 0)) % UINT64MOD)
    ∧ ((cse.RecordTransition oldState newState).2.numConnecting =
      (cse.numConnecting + (if newState = ConnState.Connecting then 1 else 0)
        + (if oldState = ConnState.Connecting then UINT64MOD - 1 else 0)) % UINT64MOD)
    ∧ (oldState ≠ ConnState.Ready → oldState ≠ ConnState.Connecting →
       newState ≠ ConnState.Ready → newState ≠ ConnState.Connecting →
       (cse.RecordTransition oldState newState).2 = cse)
    ∧ ((cse.RecordTransition oldState oldState).2 = cse) := by
  have hmod : UINT64MOD = 18446744073709551616 := rfl
  rcases cse with ⟨r, c⟩
  simp only [UINT64MOD] at hr hc
  refine ⟨?_, ?_, ?_, ?_⟩
  · rcases oldState <;> rcases newState <;>
      simp only [ConnectivityStateEvaluator.RecordTransition,
        ConnectivityStateEvaluator.applyOne, hmod, reduceIte, reduceCtorEq,
        ite_false, ite_true] <;> omega
  · rcases oldState <;> rcases newState <;>
      simp only [ConnectivityStateEvaluator.RecordTransition,
        ConnectivityStateEvaluator.applyOne, hmod, reduceIte, reduceCtorEq,
        ite_false, ite_true] <;> omega
  · intro h1 h2 h3 h4
    rcases oldState <;> rcases newState <;>
      first
        | exact absurd rfl h1
        | exact absurd rfl h2
        | exact absurd rfl h3
        | exact absurd rfl h4
        | rfl
  · rcases oldState
    · rfl
    · simp only [ConnectivityStateEvaluator.RecordTransition,
        ConnectivityStateEvaluator.applyOne, hmod,
        ConnectivityStateEvaluator.mk.injEq, and_true, true_and]
      omega
    · simp only [ConnectivityStateEvaluator.RecordTransition,
        ConnectivityStateEvaluator.applyOne, hmod,
        ConnectivityStateEvaluator.mk.injEq, and_true, true_and]
      omega
    · rfl
    · rfl

/-- Witness for C6: a concrete evaluator ⟨5, 7⟩ and the transition
Ready → Connecting. -/
theorem recordTransition_counter_deltas_witness :
    ((5 : Nat) < UINT64MOD ∧ (7 : Nat) < UINT64MOD)
    ∧ (((ConnectivityStateEvaluator.mk 5 7).RecordTransition
          ConnState.Ready ConnState.Connecting).2.numReady =
        (5 + (if ConnState.Connecting = ConnState.Ready then 1 else 0)
          + (if ConnState.Ready = ConnState.Ready then UINT64MOD - 1 else 0)) % UINT64MOD)
    ∧ (((ConnectivityStateEvaluator.mk 5 7).RecordTransition
          ConnState.Ready ConnState.Connecting).2.numConnecting =
        (7 + (if ConnState.Connecting = ConnState.Connecting then 1 else 0)
          + (if ConnState.Ready = ConnState.Connecting then UINT64MOD - 1 else 0)) % UINT64MOD)
    ∧ (((ConnectivityStateEvaluator.mk 5 7).RecordTransition
          ConnState.Ready ConnState.Ready).2 = ⟨5, 7⟩) := by
  have h := recordTransition_counter_deltas ⟨5, 7⟩ ConnState.Ready ConnState.Connecting
    (by decide) (by decide)
  exact ⟨⟨by decide, by decide⟩, h.1, h.2.1, h.2.2.2⟩

/-- The naive full-rescan reference aggregation from the spec: Ready if
at least one handle is Ready, else Connecting if at least one handle is
Connecting, else TransientFailure. -/
def naiveEval (hs : List ConnState) : ConnState :=
  if ConnState.Ready ∈ hs then ConnState.Ready
  else if ConnState.Connecting ∈ hs then ConnState.Connecting
  else ConnState.TransientFailure

/-- Drive the incremental evaluator over a list of per-handle transitions
(handle index, new state).  `hs` is the true per-handle state vector; each
transition reports (old = current state of that handle, new), exactly the
well-formedness condition of the claim.  Transitions naming an index out of
range are skipped.  Returns the channel state output by RecordTransition
after each applied transition. -/
def runIncremental (hs : List ConnState) (cse : ConnectivityStateEvaluator) :
    List (Nat × ConnState) → List ConnState
  | [] => []
  | (i, s) :: ts =>
    match hs[i]? with
    | some oldS =>
        let r := cse.RecordTransition oldS s
        r.1 :: runIncremental (hs.set i s) r.2 ts
    | none => runIncremental hs cse ts

/-- Drive the naive full-rescan reference over the same transitions. -/
def runNaive (hs : List ConnState) : List (Nat × ConnState) → List ConnState
  | [] => []
  | (i, s) :: ts =>
    match hs[i]? with
    | some _ => naiveEval (hs.set i s) :: runNaive (hs.set i s) ts
    | none => runNaive hs ts

lemma count_set_juggle (a b : ConnState) :
    ∀ (hs : List ConnState) (i : Nat) (h : i < hs.length),
    (hs.set i b).count a + (if hs[i] = a then 1 else 0)
      = hs.count a + (if b = a then 1 else 0) := by
  intro hs
  induction hs with
  | nil => intro i h; simp at h
  | cons x xs ih =>
    intro i h
    cases i with
    | zero =>
      simp only [List.set, List.getElem_cons_zero, List.count_cons, beq_iff_eq]
      omega
    | succ j =>
      have hj : j < xs.length := by simpa using h
      have := ih j hj
      simp only [List.set, List.getElem_cons_succ, List.count_cons, beq_iff_eq]
      omega

lemma naiveEval_by_count (hs : List ConnState) :
    naiveEval hs =
      if 0 < hs.count ConnState.Ready then ConnState.Ready
      else if 0 < hs.count ConnState.Connecting then ConnState.Connecting
      else ConnState.TransientFailure := by
  simp only [naiveEval, List.count_pos_iff]

lemma recordTransition_fst (cse : ConnectivityStateEvaluator) (o n : ConnState) :
    (cse.RecordTransition o n).1 =
      if 0 < (cse.RecordTransition o n).2.numReady then ConnState.Ready
      else if 0 < (cse.RecordTransition o n).2.numConnecting then ConnState.Connecting
      else ConnState.TransientFailure := rfl

lemma recordTransition_step (hs : List ConnState) (i : Nat) (h : i < hs.length)
    (s : ConnState) (cse : ConnectivityStateEvaluator)
    (hR : cse.numReady = hs.count ConnState.Ready)
    (hC : cse.numConnecting = hs.count ConnState.Connecting)
    (hlen : hs.length < UINT64MOD) :
    ((cse.RecordTransition hs[i] s).2.numReady = (hs.set i s).count ConnState.Ready)
    ∧ ((cse.RecordTransition hs[i] s).2.numConnecting
        = (hs.set i s).count ConnState.Connecting)
    ∧ (cse.RecordTransition hs[i] s).1 = naiveEval (hs.set i s) := by
  have hmod : UINT64MOD = 18446744073709551616 := rfl
  obtain ⟨r, c⟩ := cse
  simp only at hR hC
  have hjR := count_set_juggle ConnState.Ready s hs i h
  have hjC := count_set_juggle ConnState.Connecting s hs i h
  have hbR := List.count_le_length ConnState.Ready hs
  have hbC := List.count_le_length ConnState.Connecting hs
  have hbR2 := List.count_le_length ConnState.Ready (hs.set i s)
  have hbC2 := List.count_le_length ConnState.Connecting (hs.set i s)
  rw [List.length_set] at hbR2 hbC2
  simp only [UINT64MOD] at hlen
  have e12 :
      ((ConnectivityStateEvaluator.RecordTransition ⟨r, c⟩ hs[i] s).2.numReady
        = (hs.set i s).count ConnState.Ready)
      ∧ ((ConnectivityStateEvaluator.RecordTransition ⟨r, c⟩ hs[i] s).2.numConnecting
        = (hs.set i s).count ConnState.Connecting) := by
    cases hO : hs[i] <;> rcases s <;>
      simp only [hO, reduceCtorEq, reduceIte, ite_true, ite_false] at hjR hjC <;>
      simp only [ConnectivityStateEvaluator.RecordTransition,
        ConnectivityStateEvaluator.applyOne, hmod] <;>
      exact ⟨by omega, by omega⟩
  refine ⟨e12.1, e12.2, ?_⟩
  rw [recordTransition_fst, e12.1, e12.2, naiveEval_by_count]

lemma runIncremental_eq_runNaive_aux :
    ∀ (ts : List (Nat × ConnState)) (hs : List ConnState)
      (cse : ConnectivityStateEvaluator),
    cse.numReady = hs.count ConnState.Ready →
    cse.numConnecting = hs.count ConnState.Connecting →
    hs.length < UINT64MOD →
    runIncremental hs cse ts = runNaive hs ts := by
  intro ts
  induction ts with
  | nil => intro hs cse hR hC hlen; rfl
  | cons t ts ih =>
    intro hs cse hR hC hlen
    obtain ⟨i, s⟩ := t
    simp only [runIncremental, runNaive]
    cases hgi : hs[i]? with
    | none => exact ih hs cse hR hC hlen
    | some oldS =>
      obtain ⟨hi, hval⟩ := List.getElem?_eq_some_iff.mp hgi
      subst hval
      have step := recordTransition_step hs i hi s cse hR hC hlen
      dsimp only
      rw [step.2.2]
      congr 1
      exact ih (hs.set i s) _ step.1 step.2.1 (by rw [List.length_set]; exact hlen)

/-- C2: for every number of handles n (each starting Idle, with the
evaluator counters starting at 0) and every sequence of per-handle health
transitions in which each transition reports the current state of the handle as
its old state, the channel states produced by the incremental counter-based
RecordTransition coincide step by step with the naive full rescan
(Ready if some handle is Ready, else Connecting if some handle is
Connecting, else TransientFailure). -/
theorem recordTransition_matches_naive_rescan
    (n : Nat) (ts : List (Nat × ConnState)) (hn : n < UINT64MOD) :
    runIncremental (List.replicate n ConnState.Idle) ⟨0, 0⟩ ts
      = runNaive (List.replicate n ConnState.Idle) ts := by
  apply runIncremental_eq_runNaive_aux
  · simp [List.count_replicate]
  · simp [List.count_replicate]
  · simpa using hn

/-- Witness for C2: two handles, a concrete four-step transition trace. -/
theorem recordTransition_matches_naive_rescan_witness :
    (2 < UINT64MOD)
    ∧ (runIncremental (List.replicate 2 ConnState.Idle) ⟨0, 0⟩
        [(0, ConnState.Connecting), (1, ConnState.Connecting),
         (0, ConnState.Ready), (0, ConnState.TransientFailure),
         (1, ConnState.Ready)]
      = runNaive (List.replicate 2 ConnState.Idle)
        [(0, ConnState.Connecting), (1, ConnState.Connecting),
         (0, ConnState.Ready), (0, ConnState.TransientFailure),
         (1, ConnState.Ready)]) :=
  ⟨by decide,
   recordTransition_matches_naive_rescan 2
     [(0, ConnState.Connecting), (1, ConnState.Connecting),
      (0, ConnState.Ready), (0, ConnState.TransientFailure),
      (1, ConnState.Ready)] (by decide)⟩

/-- A balancer Builder as the registry sees it: identified by its Name()
string; the id field distinguishes distinct builders sharing a name. -/
structure Builder where
  name : String
  id : Nat
deriving DecidableEq, Repr

/-- The ASCII fragment of case folding: maps each ASCII uppercase letter
to its lowercase form and leaves every other character unchanged.  Go
strings.ToLower is Unicode-aware and folds strictly more characters than
this; it is therefore NOT embedded by this function.  It is used only to
express the ASCII-case-folding premise of the claim, bridged to the real
folding by the hypothesis hf of the theorem below, which is true of
strings.ToLower: whenever two strings agree under ASCII folding, each
character position holds either identical characters or an ASCII
upper/lower pair, and strings.ToLower sends both to the same character. -/
def asciiToLower (c : Char) : Char :=
  if 65 ≤ c.toNat ∧ c.toNat ≤ 90 then Char.ofNat (c.toNat + 32) else c

def stringsToLower (s : String) : String := ⟨s.data.map asciiToLower⟩

/-- The process-wide balancer map m : name → Builder (balancer.go line 41),
modelled as a lookup function; the initial map is empty. -/
def Registry := String → Option Builder

def emptyRegistry : Registry := fun _ => none

/-- Register (balancer.go lines 53-55): m[strings.ToLower(b.Name())] = b.
The Unicode case table of strings.ToLower is not reproduced here, so the
folding function is taken as a parameter; every theorem below is proved
for an arbitrary folding function and thus holds of the program with
toLower instantiated to the real strings.ToLower. -/
def Register (toLower : String → String) (b : Builder) (m : Registry) : Registry :=
  fun k => if k = toLower b.name then some b else m k

/-- Get (balancer.go lines 72-77): looks up m[strings.ToLower(name)] and
returns nil (none) when no builder is registered under that key. -/
def Get (toLower : String → String) (m : Registry) (name : String) : Option Builder :=
  m (toLower name)

/-- unregisterForTesting (balancer.go lines 61-63): delete(m, name); the
key is deleted exactly as given, without folding. -/
def unregisterForTesting (name : String) (m : Registry) : Registry :=
  fun k => if k = name then none else m k

/-- The registry reached by a sequence of registrations from the empty map. -/
def buildRegistry (toLower : String → String) (bs : List Builder) : Registry :=
  bs.foldl (fun m b => Register toLower b m) emptyRegistry

lemma get_foldl_no_match (toLower : String → String) (n : String) :
    ∀ (bs : List Builder) (m : Registry),
      (∀ b ∈ bs, toLower b.name ≠ toLower n) →
      Get toLower (bs.foldl (fun m b => Register toLower b m) m) n = Get toLower m n := by
  intro bs
  induction bs with
  | nil => intro m _; rfl
  | cons b bs ih =>
    intro m hb
    simp only [List.foldl_cons]
    rw [ih (Register toLower b m) (fun x hx => hb x (List.mem_cons_of_mem b hx))]
    simp only [Get, Register]
    rw [if_neg]
    intro hEq
    exact hb b (List.mem_cons_self b bs) (by rw [hEq])

/-- C7: for every case folding function toLower identifying at least the
pairs ASCII folding identifies (true of Go strings.ToLower), registering
a builder makes Lookup of any name equal to its name up to ASCII case
folding return it; of two registrations whose names fold equal the later
wins; Lookup of a name whose folding (the program folding, not merely
the ASCII fragment) was never registered returns nil; and Lookup after
unregistering the folded key returns nil. -/
theorem register_get_contract (toLower : String → String)
    (hf : ∀ s t : String, stringsToLower s = stringsToLower t → toLower s = toLower t) :
    (∀ (m : Registry) (b : Builder) (n : String),
      stringsToLower n = stringsToLower b.name →
      Get toLower (Register toLower b m) n = some b)
    ∧ (∀ (m : Registry) (b1 b2 : Builder) (n : String),
      stringsToLower b1.name = stringsToLower b2.name →
      stringsToLower n = stringsToLower b2.name →
      Get toLower (Register toLower b2 (Register toLower b1 m)) n = some b2)
    ∧ (∀ (n : String) (bs : List Builder),
      (∀ b ∈ bs, toLower b.name ≠ toLower n) →
      Get toLower (buildRegistry toLower bs) n = none)
    ∧ (∀ (m : Registry) (n : String),
      Get toLower (unregisterForTesting (toLower n) m) n = none) := by
  refine ⟨?_, ?_, ?_, ?_⟩
  · intro m b n hn
    have h := hf n b.name hn
    simp only [Get, Register, h, ite_true, if_pos rfl]
  · intro m b1 b2 n _ hn
    have h := hf n b2.name hn
    simp only [Get, Register, h, ite_true, if_pos rfl]
  · intro n bs hb
    rw [buildRegistry, get_foldl_no_match toLower n bs emptyRegistry hb]
    rfl
  · intro m n
    simp only [Get, unregisterForTesting, ite_true, if_pos rfl]

/-- Witness for C7 at concrete builders and names, with the folding
function instantiated to the ASCII fragment (for which the bridge
hypothesis hf holds trivially) so the registry evaluates. -/
theorem register_get_contract_witness :
    (stringsToLower "rOUNDrobin" = stringsToLower (Builder.mk "RoundRobin" 0).name
      ∧ Get stringsToLower (Register stringsToLower ⟨"RoundRobin", 0⟩ emptyRegistry)
          "rOUNDrobin" = some ⟨"RoundRobin", 0⟩)
    ∧ (stringsToLower (Builder.mk "ROUNDROBIN" 1).name
        = stringsToLower (Builder.mk "roundRobin" 2).name
      ∧ Get stringsToLower
          (Register stringsToLower ⟨"roundRobin", 2⟩
            (Register stringsToLower ⟨"ROUNDROBIN", 1⟩ emptyRegistry))
          "roundrobin" = some ⟨"roundRobin", 2⟩)
    ∧ ((∀ b ∈ [Builder.mk "pickfirst" 3],
          stringsToLower b.name ≠ stringsToLower "roundrobin")
      ∧ Get stringsToLower (buildRegistry stringsToLower [Builder.mk "pickfirst" 3])
          "roundrobin" = none)
    ∧ Get stringsToLower (unregisterForTesting (stringsToLower "RoundRobin") emptyRegistry)
        "RoundRobin" = none := by
  have h := register_get_contract stringsToLower (fun s t hst => hst)
  exact ⟨⟨by decide, h.1 emptyRegistry ⟨"RoundRobin", 0⟩ "rOUNDrobin" (by decide)⟩,
    ⟨by decide, h.2.1 emptyRegistry ⟨"ROUNDROBIN", 1⟩ ⟨"roundRobin", 2⟩ "roundrobin"
      (by decide) (by decide)⟩,
    ⟨by decide, h.2.2.1 "roundrobin" [⟨"pickfirst", 3⟩] (by decide)⟩,
    h.2.2.2 emptyRegistry "RoundRobin"⟩

/-- apis.SubConn: an opaque, identity-comparable connection handle
exposing its resolved address (`GetAddrConnection().Addr` in part_001,
`GetAddrConnection().GetCurAddr().Addr` in the balancer.go copy). -/
structure SubConn where
  id : Nat
  addr : String
deriving DecidableEq, Repr

/-- The sentinel errors of package balancer reachable from the picker
path (balancer.go lines 201-212 and 309). -/
inductive GrpcError where
  | ErrNoSubConnAvailable
  | ErrTransientFailure
  | ErrBadResolverState
deriving DecidableEq, Repr

/-- balancer.PickResult (balancer.go lines 215-227): the chosen SubConn;
the Go interface value nil is modelled as none. -/
structure PickResult where
  subConn : Option SubConn
deriving DecidableEq, Repr

/-- The request context as observed by stickyKeyFromContext: the outgoing
metadata map md plus the `added` slices when
metadata.FromOutgoingContextRaw succeeds; none models ok = false. -/
structure Context where
  md : Option ((List (String × List String)) × List (List String))
deriving DecidableEq

/-- Go map lookup md[stickinessMDKey] over the metadata entries. -/
def mdLookup : List (String × List String) → String → Option (List String)
  | [], _ => none
  | (k, v) :: rest, key => if k = key then some v else mdLookup rest key

/-- Inner loop of stickyKeyFromContext over one added slice ss:
for i := 0; i < len(ss)-1; i += 2, return ss[i+1] when ss[i] == key
(a trailing odd element is never examined). -/
def scanPairs : List String → String → Option String
  | a :: b :: rest, key => if a = key then some b else scanPairs rest key
  | _, _ => none

/-- Outer loop of stickyKeyFromContext over the added slices. -/
def searchAdded : List (List String) → String → Option String
  | [], _ => none
  | ss :: rest, key =>
    match scanPairs ss key with
    | some v => some v
    | none => searchAdded rest key

/-- stickyKeyFromContext (part_001 lines 93-118): none when the key name
is empty or the outgoing metadata is absent; else the first value stored
under the key in md if nonempty, else the value found in the added
slices; none when nothing matches (ok = false). -/
def stickyKeyFromContext (ctx : Context) (stickinessMDKey : String) : Option String :=
  if stickinessMDKey = "" then none
  else
    match ctx.md with
    | none => none
    | some (md, added) =>
      match mdLookup md stickinessMDKey with
      | some (v :: _) => some v
      | _ => searchAdded added stickinessMDKey

def OverWriteKeyName : String := "lb-addr"

/-- rrPicker (part_001 lines 50-58): the immutable SubConn snapshot and
the cursor `next` (the mutex is immaterial in this sequential model). -/
structure rrPicker where
  subConns : List SubConn
  next : Nat
deriving DecidableEq, Repr

/-- The affinity loop of Pick (part_001 lines 73-79): chosenSc starts nil
and is overwritten by every handle whose address compares equal
(strings.Compare == 0) to overwriteAddr, so the last match in snapshot
order wins. -/
def lastMatchLoop (scs : List SubConn) (overwriteAddr : String) : Option SubConn :=
  scs.foldl (fun chosenSc sc => if sc.addr = overwriteAddr then some sc else chosenSc) none

/-- rrPicker.Pick (part_001 lines 66-88 and balancer.go lines 412-434).
When the affinity key is extracted from the context (ok = true) the
affinity loop chooses the connection and the cursor is untouched;
otherwise the handle at the cursor is returned and the cursor advances by
one modulo the snapshot length.  Both branches return a nil error.  The
result is none exactly where the Go code would panic (cursor index out of
range). -/
def rrPicker.Pick (p : rrPicker) (ctx : Context) :
    Option ((PickResult × Option GrpcError) × rrPicker) :=
  match stickyKeyFromContext ctx OverWriteKeyName with
  | some overwriteAddr =>
      some ((⟨lastMatchLoop p.subConns overwriteAddr⟩, none), p)
  | none =>
      match p.subConns[p.next]? with
      | some sc =>
          some ((⟨some sc⟩, none),
            { p with next := (p.next + 1) % p.subConns.length })
      | none => none

/-- A published picker: either the error picker or the round-robin one. -/
inductive Picker where
  | errPicker (e : GrpcError)
  | rr (p : rrPicker)
deriving DecidableEq, Repr

/-- Pick on a published Picker.  Modelled from the spec: base.NewErrPicker
(package balancer/base, not under src/) is the "unavailable" error
selector, whose Pick always returns its error and no connection; the
round-robin case dispatches to rrPicker.Pick. -/
def Picker.Pick : Picker → Context → Option ((PickResult × Option GrpcError) × Picker)
  | .errPicker e, _ => some ((⟨none⟩, some e), .errPicker e)
  | .rr p, ctx => (p.Pick ctx).map (fun r => (r.1, .rr r.2))

/-- rrPickerBuilder.Build (part_001 lines 32-48): with no Ready SubConns
return base.NewErrPicker(balancer.ErrNoSubConnAvailable); otherwise build
an rrPicker over the Ready SubConns (readySCs lists them in map-iteration
order) starting at a random cursor.  Modelled from the spec:
grpcrand.Intn(n) (not under src/) returns a uniform value in [0, n); the
draw is passed in as rnd and reduced mod n. -/
def rrPickerBuilder.Build (readySCs : List SubConn) (rnd : Nat) : Picker :=
  if readySCs.length = 0 then .errPicker .ErrNoSubConnAvailable
  else .rr { subConns := readySCs, next := rnd % readySCs.length }

/-- Runs k successive Pick calls against the same context, collecting the
chosen handles; none if any call panics or chooses no handle. -/
def rrPicker.PickRun (p : rrPicker) (ctx : Context) : Nat → Option (List SubConn × rrPicker)
  | 0 => some ([], p)
  | Nat.succ k =>
    match p.Pick ctx with
    | some ((⟨some sc⟩, _), p2) =>
      match p2.PickRun ctx k with
      | some (outs, p3) => some (sc :: outs, p3)
      | none => none
    | _ => none

lemma lastMatchLoop_gen (a : String) :
    ∀ (l : List SubConn) (acc : Option SubConn),
      (l.foldl (fun chosenSc sc => if sc.addr = a then some sc else chosenSc) acc = acc
        ∧ ∀ x ∈ l, x.addr ≠ a)
      ∨ (∃ h, l.foldl (fun chosenSc sc => if sc.addr = a then some sc else chosenSc) acc
            = some h ∧ h ∈ l ∧ h.addr = a) := by
  intro l
  induction l with
  | nil => intro acc; exact Or.inl ⟨rfl, by simp⟩
  | cons x xs ih =>
    intro acc
    rw [List.foldl_cons]
    by_cases hx : x.addr = a
    · rw [if_pos hx]
      rcases ih (some x) with ⟨heq, _⟩ | ⟨h, heq, hmem, haddr⟩
      · exact Or.inr ⟨x, heq, List.mem_cons_self x xs, hx⟩
      · exact Or.inr ⟨h, heq, List.mem_cons_of_mem x hmem, haddr⟩
    · rw [if_neg hx]
      rcases ih acc with ⟨heq, hall⟩ | ⟨h, heq, hmem, haddr⟩
      · refine Or.inl ⟨heq, ?_⟩
        intro y hy
        rcases List.mem_cons.mp hy with rfl | hy2
        · exact hx
        · exact hall y hy2
      · exact Or.inr ⟨h, heq, List.mem_cons_of_mem x hmem, haddr⟩

lemma lastMatchLoop_eq_getLast (a : String) :
    ∀ (l : List SubConn) (acc : Option SubConn),
      l.foldl (fun chosenSc sc => if sc.addr = a then some sc else chosenSc) acc
        = match (l.filter (fun sc => decide (sc.addr = a))).getLast? with
          | some y => some y
          | none => acc := by
  intro l
  induction l using List.reverseRecOn with
  | nil => intro acc; rfl
  | append_singleton l x ih =>
    intro acc
    rw [List.foldl_append, List.foldl_cons, List.foldl_nil, List.filter_append]
    by_cases hx : x.addr = a
    · rw [if_pos hx]
      have : (List.filter (fun sc => decide (sc.addr = a)) [x]) = [x] := by
        simp [List.filter, hx]
      rw [this, List.getLast?_concat]
    · rw [if_neg hx]
      have : (List.filter (fun sc => decide (sc.addr = a)) [x]) = [] := by
        simp [List.filter, hx]
      rw [this, List.append_nil]
      exact ih acc

/-- C3: when the request context carries an affinity key equal to the
address of some handle in the snapshot, Pick returns a handle of the
snapshot bearing that address, with a nil error, and returns the picker
completely unchanged (cursor untouched), so subsequent non-affinity picks
behave as if this pick had never happened. -/
theorem affinity_match_returns_handle_frame
    (p : rrPicker) (ctx : Context) (a : String) (sc : SubConn)
    (hkey : stickyKeyFromContext ctx OverWriteKeyName = some a)
    (hmem : sc ∈ p.subConns) (haddr : sc.addr = a) :
    ∃ h : SubConn, p.Pick ctx = some ((⟨some h⟩, none), p)
      ∧ h ∈ p.subConns ∧ h.addr = a := by
  rcases lastMatchLoop_gen a p.subConns none with ⟨_, hall⟩ | ⟨h, heq, hh1, hh2⟩
  · exact absurd haddr (hall sc hmem)
  · refine ⟨h, ?_, hh1, hh2⟩
    simp only [rrPicker.Pick, hkey, lastMatchLoop, heq]

/-- Witness for C3: snapshot [(0, a), (1, b)] at cursor 1, a request whose
metadata carries lb-addr = a. -/
theorem affinity_match_returns_handle_frame_witness :
    (stickyKeyFromContext ⟨some ([("lb-addr", ["a"])], [])⟩ OverWriteKeyName = some "a"
      ∧ SubConn.mk 0 "a" ∈ [SubConn.mk 0 "a", SubConn.mk 1 "b"]
      ∧ (SubConn.mk 0 "a").addr = "a")
    ∧ ∃ h : SubConn,
        rrPicker.Pick ⟨[⟨0, "a"⟩, ⟨1, "b"⟩], 1⟩ ⟨some ([("lb-addr", ["a"])], [])⟩
          = some ((⟨some h⟩, none), ⟨[⟨0, "a"⟩, ⟨1, "b"⟩], 1⟩)
        ∧ h ∈ [SubConn.mk 0 "a", SubConn.mk 1 "b"] ∧ h.addr = "a" :=
  ⟨⟨by decide, by decide, by decide⟩,
   affinity_match_returns_handle_frame ⟨[⟨0, "a"⟩, ⟨1, "b"⟩], 1⟩
     ⟨some ([("lb-addr", ["a"])], [])⟩ "a" ⟨0, "a"⟩ (by decide) (by decide) (by decide)⟩

/-- C10: when the affinity key matches two or more handle addresses, Pick
returns the last matching handle in snapshot order (the loop keeps
overwriting chosenSc), leaving the picker unchanged. -/
theorem affinity_multi_match_last_wins
    (p : rrPicker) (ctx : Context) (a : String)
    (hkey : stickyKeyFromContext ctx OverWriteKeyName = some a)
    (hmulti : 2 ≤ (p.subConns.filter (fun sc => decide (sc.addr = a))).length) :
    p.Pick ctx
      = some ((⟨(p.subConns.filter (fun sc => decide (sc.addr = a))).getLast?⟩, none), p) := by
  simp only [rrPicker.Pick, hkey, lastMatchLoop]
  rw [lastMatchLoop_eq_getLast a p.subConns none]
  cases (p.subConns.filter (fun sc => decide (sc.addr = a))).getLast? <;> rfl

/-- Witness for C10: two handles share address a; the later one (id 2) is
returned. -/
theorem affinity_multi_match_last_wins_witness :
    (stickyKeyFromContext ⟨some ([("lb-addr", ["a"])], [])⟩ OverWriteKeyName = some "a"
      ∧ 2 ≤ (([⟨0, "a"⟩, ⟨1, "b"⟩, ⟨2, "a"⟩] : List SubConn).filter
            (fun sc => decide (sc.addr = "a"))).length)
    ∧ rrPicker.Pick ⟨[⟨0, "a"⟩, ⟨1, "b"⟩, ⟨2, "a"⟩], 0⟩ ⟨some ([("lb-addr", ["a"])], [])⟩
        = some ((⟨(([⟨0, "a"⟩, ⟨1, "b"⟩, ⟨2, "a"⟩] : List SubConn).filter
            (fun sc => decide (sc.addr = "a"))).getLast?⟩, none),
          ⟨[⟨0, "a"⟩, ⟨1, "b"⟩, ⟨2, "a"⟩], 0⟩) :=
  ⟨⟨by decide, by decide⟩,
   affinity_multi_match_last_wins ⟨[⟨0, "a"⟩, ⟨1, "b"⟩, ⟨2, "a"⟩], 0⟩
     ⟨some ([("lb-addr", ["a"])], [])⟩ "a" (by decide) (by decide)⟩

lemma pickRun_no_affinity (ctx : Context)
    (hkey : stickyKeyFromContext ctx OverWriteKeyName = none) :
    ∀ (k : Nat) (l : List SubConn) (c : Nat),
      c < l.length → k ≤ l.length →
      rrPicker.PickRun ⟨l, c⟩ ctx k
        = some ((((l ++ l).drop c).take k), ⟨l, (c + k) % l.length⟩) := by
  intro k
  induction k with
  | zero =>
    intro l c hc _
    simp only [rrPicker.PickRun, List.take_zero]
    rw [Nat.add_zero, Nat.mod_eq_of_lt hc]
  | succ k ih =>
    intro l c hc hk
    have hlen : 0 < l.length := Nat.lt_of_le_of_lt (Nat.zero_le c) hc
    have hc2 : c < (l ++ l).length := by
      rw [List.length_append]; omega
    simp only [rrPicker.PickRun, rrPicker.Pick, hkey]
    rw [List.getElem?_eq_getElem hc]
    dsimp only
    have hmodlt : (c + 1) % l.length < l.length := Nat.mod_lt _ hlen
    rw [ih l ((c + 1) % l.length) hmodlt (by omega)]
    dsimp only
    have hcur : ((c + 1) % l.length + k) % l.length = (c + (k + 1)) % l.length := by
      rw [Nat.mod_add_mod]
      congr 1
      omega
    have hlist : l[c] :: ((l ++ l).drop ((c + 1) % l.length)).take k
        = ((l ++ l).drop c).take (k + 1) := by
      rw [List.drop_eq_getElem_cons hc2, List.take_succ_cons,
        List.getElem_append_left hc]
      by_cases hwrap : c + 1 < l.length
      · rw [Nat.mod_eq_of_lt hwrap]
      · have hce : c + 1 = l.length := by omega
        rw [hce, Nat.mod_self, List.drop_zero, ← hce, hce, List.drop_left]
        rw [List.take_append_of_le_length (by omega)]
    rw [hcur, hlist]

/-- C4: a non-affinity Pick returns the handle at the cursor and advances
the cursor by one modulo the snapshot length; N consecutive non-affinity
picks starting at any cursor c < N return the rotation of the snapshot
starting at c — each handle exactly once, as a permutation of the
snapshot — and bring the cursor back to c. -/
theorem roundRobin_cycle (p : rrPicker) (ctx : Context)
    (hkey : stickyKeyFromContext ctx OverWriteKeyName = none)
    (hc : p.next < p.subConns.length) :
    (p.Pick ctx = some ((⟨some (p.subConns[p.next])⟩, none),
        ⟨p.subConns, (p.next + 1) % p.subConns.length⟩))
    ∧ (p.PickRun ctx p.subConns.length
        = some (p.subConns.drop p.next ++ p.subConns.take p.next, p))
    ∧ (p.subConns.drop p.next ++ p.subConns.take p.next).Perm p.subConns := by
  obtain ⟨l, c⟩ := p
  simp only at hc
  refine ⟨?_, ?_, ?_⟩
  · simp only [rrPicker.Pick, hkey]
    rw [List.getElem?_eq_getElem hc]
  · rw [pickRun_no_affinity ctx hkey l.length l c hc (Nat.le_refl _)]
    have houts : ((l ++ l).drop c).take l.length = l.drop c ++ l.take c := by
      rw [List.drop_append_of_le_length (Nat.le_of_lt hc)]
      have hsplit : l.length = (l.drop c).length + c := by
        rw [List.length_drop]; omega
      rw [hsplit, List.take_append]
    have hcur : (c + l.length) % l.length = c := by
      rw [Nat.add_mod_right, Nat.mod_eq_of_lt hc]
    rw [houts, hcur]
  · have hperm : (l.drop c ++ l.take c).Perm (l.take c ++ l.drop c) :=
      List.perm_append_comm
    rw [List.take_append_drop] at hperm
    exact hperm

/-- Witness for C4: snapshot [(0,a), (1,b), (2,c)] at cursor 1 with a
contextless request: three picks return b, c, a and restore the cursor. -/
theorem roundRobin_cycle_witness :
    (stickyKeyFromContext ⟨none⟩ OverWriteKeyName = none ∧ 1 < 3)
    ∧ (rrPicker.Pick ⟨[⟨0, "a"⟩, ⟨1, "b"⟩, ⟨2, "c"⟩], 1⟩ ⟨none⟩
        = some ((⟨some ⟨1, "b"⟩⟩, none), ⟨[⟨0, "a"⟩, ⟨1, "b"⟩, ⟨2, "c"⟩], 2 % 3⟩))
    ∧ (rrPicker.PickRun ⟨[⟨0, "a"⟩, ⟨1, "b"⟩, ⟨2, "c"⟩], 1⟩ ⟨none⟩ 3
        = some ([⟨1, "b"⟩, ⟨2, "c"⟩, ⟨0, "a"⟩], ⟨[⟨0, "a"⟩, ⟨1, "b"⟩, ⟨2, "c"⟩], 1⟩))
    ∧ ([SubConn.mk 1 "b", ⟨2, "c"⟩, ⟨0, "a"⟩] : List SubConn).Perm
        [⟨0, "a"⟩, ⟨1, "b"⟩, ⟨2, "c"⟩] := by
  have h := roundRobin_cycle ⟨[⟨0, "a"⟩, ⟨1, "b"⟩, ⟨2, "c"⟩], 1⟩ ⟨none⟩
    (by decide) (by decide)
  exact ⟨⟨by decide, by decide⟩, h.1, h.2.1, h.2.2⟩

/-- C5: with an empty Ready set the builder returns the error selector
for ErrNoSubConnAvailable, and every Select on it returns that error with
no connection (total — no panic, no modulo by zero is ever evaluated). -/
theorem empty_ready_err_selector (rnd : Nat) (ctx : Context) :
    rrPickerBuilder.Build [] rnd = Picker.errPicker GrpcError.ErrNoSubConnAvailable
    ∧ Picker.Pick (rrPickerBuilder.Build [] rnd) ctx
        = some ((⟨none⟩, some GrpcError.ErrNoSubConnAvailable),
            Picker.errPicker GrpcError.ErrNoSubConnAvailable) :=
  ⟨rfl, rfl⟩

/-- C9: after construction over a non-empty Ready list the cursor is in
[0, N); every completed Pick preserves membership of the cursor in
[0, N); and under that invariant the cursor index into the snapshot is in
bounds, so Pick never panics. -/
theorem cursor_always_in_bounds :
    (∀ (l : List SubConn) (rnd : Nat), 0 < l.length →
      rrPickerBuilder.Build l rnd = Picker.rr ⟨l, rnd % l.length⟩
        ∧ rnd % l.length < l.length)
    ∧ (∀ (p : rrPicker) (ctx : Context) (res : PickResult × Option GrpcError)
        (p2 : rrPicker),
      p.next < p.subConns.length → p.Pick ctx = some (res, p2) →
      p2.subConns = p.subConns ∧ p2.next < p2.subConns.length)
    ∧ (∀ (p : rrPicker) (ctx : Context), p.next < p.subConns.length →
      (p.Pick ctx).isSome ∧ (p.subConns[p.next]?).isSome) := by
  refine ⟨?_, ?_, ?_⟩
  · intro l rnd h
    constructor
    · simp only [rrPickerBuilder.Build]
      rw [if_neg (by omega)]
    · exact Nat.mod_lt rnd h
  · intro p ctx res p2 hc hp
    have hlen : 0 < p.subConns.length := Nat.lt_of_le_of_lt (Nat.zero_le _) hc
    rcases hsk : stickyKeyFromContext ctx OverWriteKeyName with _ | a
    · simp only [rrPicker.Pick, hsk, List.getElem?_eq_getElem hc] at hp
      have hx := Option.some.inj hp
      injection hx with hA hB
      rw [← hB]
      exact ⟨rfl, Nat.mod_lt _ hlen⟩
    · simp only [rrPicker.Pick, hsk] at hp
      have hx := Option.some.inj hp
      injection hx with hA hB
      rw [← hB]
      exact ⟨rfl, hc⟩
  · intro p ctx hc
    rcases hsk : stickyKeyFromContext ctx OverWriteKeyName with _ | a <;>
      simp only [rrPicker.Pick, hsk, List.getElem?_eq_getElem hc] <;>
      exact ⟨rfl, rfl⟩

/-- Witness for C9 at a two-handle snapshot. -/
theorem cursor_always_in_bounds_witness :
    (0 < 2
      ∧ rrPickerBuilder.Build [⟨0, "a"⟩, ⟨1, "b"⟩] 5
          = Picker.rr ⟨[⟨0, "a"⟩, ⟨1, "b"⟩], 5 % 2⟩ ∧ 5 % 2 < 2)
    ∧ (1 < 2
      ∧ rrPicker.Pick ⟨[⟨0, "a"⟩, ⟨1, "b"⟩], 1⟩ ⟨none⟩
          = some ((⟨some ⟨1, "b"⟩⟩, none), ⟨[⟨0, "a"⟩, ⟨1, "b"⟩], 2 % 2⟩)
      ∧ ([⟨0, "a"⟩, ⟨1, "b"⟩] : List SubConn) = [⟨0, "a"⟩, ⟨1, "b"⟩] ∧ 2 % 2 < 2)
    ∧ ((rrPicker.Pick ⟨[⟨0, "a"⟩, ⟨1, "b"⟩], 1⟩ ⟨none⟩).isSome
      ∧ (([⟨0, "a"⟩, ⟨1, "b"⟩] : List SubConn)[1]?).isSome) := by
  have h1 := cursor_always_in_bounds.1 [⟨0, "a"⟩, ⟨1, "b"⟩] 5 (by decide)
  have h2 := cursor_always_in_bounds.2.1 ⟨[⟨0, "a"⟩, ⟨1, "b"⟩], 1⟩ ⟨none⟩
    (⟨some ⟨1, "b"⟩⟩, none) ⟨[⟨0, "a"⟩, ⟨1, "b"⟩], 2 % 2⟩ (by decide) (by decide)
  have h3 := cursor_always_in_bounds.2.2 ⟨[⟨0, "a"⟩, ⟨1, "b"⟩], 1⟩ ⟨none⟩ (by decide)
  exact ⟨⟨by decide, h1⟩, ⟨by decide, by decide, h2⟩, h3⟩

/-- C8: every completed Pick of the round-robin picker carries a nil
error; in particular with an affinity key present that matches no handle,
Pick returns a nil connection together with the nil error (not
ErrNoSubConnAvailable), leaving the picker unchanged. -/
theorem pick_error_always_nil :
    (∀ (p : rrPicker) (ctx : Context) (res : PickResult × Option GrpcError)
        (p2 : rrPicker),
      p.Pick ctx = some (res, p2) → res.2 = none)
    ∧ (∀ (p : rrPicker) (ctx : Context) (a : String),
      stickyKeyFromContext ctx OverWriteKeyName = some a →
      (∀ sc ∈ p.subConns, sc.addr ≠ a) →
      p.Pick ctx = some ((⟨none⟩, none), p)) := by
  constructor
  · intro p ctx res p2 hp
    rcases hsk : stickyKeyFromContext ctx OverWriteKeyName with _ | a
    · simp only [rrPicker.Pick, hsk] at hp
      rcases hg : p.subConns[p.next]? with _ | sc
      · simp only [hg] at hp
        exact Option.noConfusion hp
      · simp only [hg] at hp
        injection Option.some.inj hp with hA hB
        rw [← hA]
    · simp only [rrPicker.Pick, hsk] at hp
      injection Option.some.inj hp with hA hB
      rw [← hA]
  · intro p ctx a hkey hall
    rcases lastMatchLoop_gen a p.subConns none with ⟨heq, _⟩ | ⟨h, _, hmem, haddr⟩
    · simp only [rrPicker.Pick, hkey, lastMatchLoop, heq]
    · exact absurd haddr (hall h hmem)

/-- Witness for C8: a completed pick with nil error, and an unmatched
affinity key yielding (nil connection, nil error). -/
theorem pick_error_always_nil_witness :
    (rrPicker.Pick ⟨[⟨0, "a"⟩], 0⟩ ⟨none⟩
        = some ((⟨some ⟨0, "a"⟩⟩, none), ⟨[⟨0, "a"⟩], 1 % 1⟩)
      ∧ ((⟨some ⟨0, "a"⟩⟩, (none : Option GrpcError)) : PickResult × Option GrpcError).2
          = none)
    ∧ (stickyKeyFromContext ⟨some ([("lb-addr", ["zzz"])], [])⟩ OverWriteKeyName
        = some "zzz"
      ∧ (∀ sc ∈ [SubConn.mk 0 "a"], sc.addr ≠ "zzz")
      ∧ rrPicker.Pick ⟨[⟨0, "a"⟩], 0⟩ ⟨some ([("lb-addr", ["zzz"])], [])⟩
          = some ((⟨none⟩, none), ⟨[⟨0, "a"⟩], 0⟩)) :=
  ⟨⟨by decide,
    pick_error_always_nil.1 ⟨[⟨0, "a"⟩], 0⟩ ⟨none⟩ (⟨some ⟨0, "a"⟩⟩, none)
      ⟨[⟨0, "a"⟩], 1 % 1⟩ (by decide)⟩,
   by decide, by decide,
   pick_error_always_nil.2 ⟨[⟨0, "a"⟩], 0⟩ ⟨some ([("lb-addr", ["zzz"])], [])⟩ "zzz"
     (by decide) (by decide)⟩

/-- C1 (counterevidence): with snapshot [(0, addrA)] at cursor 0 and a
request carrying affinity key addrB matching no handle, Pick returns a
nil connection with a nil error and leaves the cursor at 0; it does not
fall through to round-robin, which (last conjunct) would have returned
the handle (0, addrA) and advanced the cursor. -/
theorem unmatched_affinity_does_not_fall_through :
    (stickyKeyFromContext ⟨some ([("lb-addr", ["addrB"])], [])⟩ OverWriteKeyName
      = some "addrB")
    ∧ (∀ sc ∈ [SubConn.mk 0 "addrA"], sc.addr ≠ "addrB")
    ∧ (rrPicker.Pick ⟨[⟨0, "addrA"⟩], 0⟩ ⟨some ([("lb-addr", ["addrB"])], [])⟩
        = some ((⟨none⟩, none), ⟨[⟨0, "addrA"⟩], 0⟩))
    ∧ (rrPicker.Pick ⟨[⟨0, "addrA"⟩], 0⟩ ⟨none⟩
        = some ((⟨some ⟨0, "addrA"⟩⟩, none), ⟨[⟨0, "addrA"⟩], 1 % 1⟩)) :=
  ⟨by decide, by decide, by decide, by decide⟩

end GrpcBalancer
